import Mathlib

/-!
Verification of the HTML link checker (`src/tools/linkchecker/main.rs`).

Strings are modelled as `List Char` and filesystem paths as lists of
components.  The filesystem is a finite map from paths to file contents plus
a set of directories.  `load_file`'s unbounded recursion is modelled with
explicit fuel: `Res.div` means the fuel ran out, `Res.panic` models a Rust
`panic!`/`unwrap` failure, and `Res.ok` is a normal return.
-/

namespace LinkChecker

/-- Characters of a Rust string slice. -/
abbrev Str := List Char

/-- A filesystem path, as a list of components. -/
abbrev FPath := List Str

/-- First index at which `pat` occurs as a contiguous sublist of `s`
(Rust `str::find`). -/
def findSub (pat : Str) : Str → Option Nat
  | [] => if pat.isEmpty then some 0 else none
  | c :: rest =>
    if pat.isPrefixOf (c :: rest) then some 0
    else (findSub pat rest).map (· + 1)

/-- First index whose character satisfies `p` (Rust `str::find` with a
char/array pattern). -/
def findIdxC (p : Char → Bool) : Str → Option Nat
  | [] => none
  | c :: rest => if p c then some 0 else (findIdxC p rest).map (· + 1)

/-- Rust `str::splitn(2, c)`: the part before the first occurrence of `c`,
and the remainder after it (if any). -/
def splitFirst (c : Char) : Str → Str × Option Str
  | [] => ([], none)
  | x :: xs =>
    if x = c then ([], some xs)
    else
      let r := splitFirst c xs
      (x :: r.1, r.2)

/-- Split a string at every occurrence of `c`, keeping empty pieces. -/
def splitOnChar (c : Char) : Str → List Str
  | [] => [[]]
  | x :: xs =>
    let r := splitOnChar c xs
    if x = c then [] :: r
    else
      match r with
      | [] => [[x]]
      | h :: t => (x :: h) :: t

/-- Rust `str::lines`: split on newline, dropping a final empty piece and a
trailing carriage return on each line. -/
def rustLines (s : Str) : List Str :=
  let parts := splitOnChar '\n' s
  let parts := if parts.getLast? = some [] then parts.dropLast else parts
  parts.map (fun l => if l.getLast? = some '\r' then l.dropLast else l)

/-- Resolve `.` and `..` components the way the operating system does when a
path is opened. -/
def normSegs (p : FPath) : FPath :=
  p.foldl
    (fun acc s =>
      if s = (".").data then acc
      else if s = ("..").data then acc.dropLast
      else acc ++ [s]) []

/-- `PathBuf::join` of a directory with a relative URL; the URL's dot
segments are kept as written (Rust does not normalize on `join`). -/
def joinRel (dir : FPath) (url : Str) : FPath :=
  dir ++ (splitOnChar '/' url).filter (fun s => !s.isEmpty)

/-- `Path::strip_prefix(root).unwrap_or(&path)`, component-wise. -/
def stripRoot (root p : FPath) : FPath :=
  if root.isPrefixOf p then p.drop root.length else p

/-- `Path::extension`: the part of the last component after its last dot;
`none` if there is no dot or the only dot is leading. -/
def pathExtension (p : FPath) : Option Str :=
  match p.getLast? with
  | none => none
  | some name =>
    match splitFirst '.' name.reverse with
    | (_, none) => none
    | (revExt, some revStem) =>
      if revStem.isEmpty then none else some revExt.reverse

/-- Replace every occurrence of the character `c` by the string `r`. -/
def replaceAllChar (c : Char) (r : Str) (s : Str) : Str :=
  s.foldr (fun x acc => if x = c then r ++ acc else x :: acc) []

/-- The percent-encoding chain of `small_url_encode`, applied in source
order (`<` first, `"` last). -/
def smallUrlEncode (s : Str) : Str :=
  replaceAllChar '"' ("%22").data <|
  replaceAllChar ']' ("%5D").data <|
  replaceAllChar '[' ("%5B").data <|
  replaceAllChar ';' ("%3B").data <|
  replaceAllChar ':' ("%3A").data <|
  replaceAllChar ',' ("%2C").data <|
  replaceAllChar '&' ("%26").data <|
  replaceAllChar '\'' ("%27").data <|
  replaceAllChar '?' ("%3F").data <|
  replaceAllChar ' ' ("%20").data <|
  replaceAllChar '>' ("%3E").data <|
  replaceAllChar '<' ("%3C").data s

/-- After an attribute-name hit, parse `=` and then a quoted value at the
start of `rest`, exactly as the scanner in `with_attrs_in_source` does. -/
def scanValue (rest : Str) : Option Str :=
  match findSub ("=").data rest with
  | none => none
  | some pe =>
    if !((rest.take pe).dropWhile (· == ' ')).isEmpty then none
    else
      let rest2 := rest.drop (pe + 1)
      match findIdxC (fun c => c == '"' || c == '\'') rest2 with
      | none => none
      | some pq =>
        if !((rest2.take pq).dropWhile (· == ' ')).isEmpty then none
        else
          match rest2.drop pq with
          | [] => none
          | q :: rest3 =>
            match findIdxC (fun c => c == q) rest3 with
            | none => none
            | some k => some (rest3.take k)

/-- The inner `while let Some(j) = line.find(attr)` loop: every successful
value extraction on one line, tagged with whether its tag was `<base`.
Fuel is the line length; each iteration strictly shortens the slice. -/
def scanLineAux (attr : Str) : Nat → Str → List (Str × Bool)
  | 0, _ => []
  | fuel + 1, line =>
    match findSub attr line with
    | none => []
    | some j =>
      let pre := line.take j
      let rest := line.drop (j + attr.length)
      let isBase := ("<base").data.isSuffixOf pre
      match scanValue rest with
      | none => scanLineAux attr fuel rest
      | some url => (url, isBase) :: scanLineAux attr fuel rest

/-- All `(value, isBase)` events of one line, in order. -/
def scanLine (attr line : Str) : List (Str × Bool) :=
  scanLineAux attr (line.length + 1) line

/-- `with_attrs_in_source`: all yielded `(value, 0-based line index, base)`
triples; a `<base` hit updates the running base instead of being yielded. -/
def withAttrsInSource (attr contents : Str) : List (Str × Nat × Str) :=
  ((rustLines contents).enum.foldl
    (fun st il =>
      (scanLine attr il.2).foldl
        (fun st2 ev =>
          if ev.2 then (st2.1, ev.1)
          else (st2.1 ++ [(ev.1, il.1, st2.2)], st2.2))
        st)
    (([], []) : List (Str × Nat × Str) × Str)).1

/-- One diagnostic line, with the line number exactly as printed. -/
inductive Output where
  | idNotUnique (file : FPath) (line : Nat) (id : Str)
  | directoryLink (file : FPath) (line : Nat) (target : FPath)
  | brokenRedirect (file : FPath) (line : Nat) (target : FPath)
  | brokenLinkFragment (file : FPath) (line : Nat) (frag : Str) (target : FPath)
  | brokenLink (file : FPath) (line : Nat) (target : FPath)
deriving DecidableEq

/-- `struct FileEntry { source, ids }`. -/
structure FileEntry where
  source : Str
  ids : List Str
deriving DecidableEq

/-- `type Cache = HashMap<PathBuf, FileEntry>`. -/
abbrev Cache := List (FPath × FileEntry)

/-- The closed corpus: regular files with their contents, and directories. -/
structure Fs where
  files : List (FPath × Str)
  dirs : List FPath
deriving DecidableEq

/-- `enum LoadError` (payloads of the I/O errors are dropped). -/
inductive LoadError where
  | ioError
  | brokenRedirect (target : FPath)
  | isRedirect
deriving DecidableEq

/-- `enum Redirect { SkipRedirect, FromRedirect(bool) }`. -/
inductive Redirect where
  | skipRedirect
  | fromRedirect (b : Bool)
deriving DecidableEq

/-- Result of `maybe_redirect`; `panic` models the `unwrap` of the closing
quote position. -/
inductive RedirOut where
  | panic
  | noRedirect
  | redirect (url : Str)
deriving DecidableEq

/-- A `Result<(PathBuf, String), LoadError>`. -/
inductive LoadRes where
  | ok (pretty : FPath) (contents : Str)
  | err (e : LoadError)
deriving DecidableEq

/-- A computation that may run out of fuel (`div`), abort (`panic`) or
return. -/
inductive Res (α : Type) where
  | div
  | panic
  | ok (a : α)
deriving DecidableEq

instance : DecidableEq (Cache × Bool × List Output × Option FPath) :=
  fun x y => inferInstanceAs (Decidable (x = y))

instance : DecidableEq (Res (Cache × Bool × List Output × Option FPath)) :=
  @instDecidableEqRes _ inferInstance

/-- Association-list lookup with decidable path equality. -/
def lookupP {α : Type} (c : List (FPath × α)) (p : FPath) : Option α :=
  match c with
  | [] => none
  | (q, v) :: rest => if q = p then some v else lookupP rest p

/-- Replace the entry stored under `p`. -/
def cUpdate (c : Cache) (p : FPath) (e : FileEntry) : Cache :=
  c.map (fun qv => if qv.1 = p then (p, e) else qv)

/-- The literal redirect marker searched for by `maybe_redirect`. -/
def redirectMarker : Str := ("<p>Redirecting to <a href=").data

/-- `maybe_redirect`: inspect only the 7th line (index 6); on a marker hit,
take the text starting one character past the marker up to the next double
quote. -/
def maybeRedirect (source : Str) : RedirOut :=
  match (rustLines source).get? 6 with
  | none => .noRedirect
  | some line =>
    match findSub redirectMarker line with
    | none => .noRedirect
    | some i =>
      let rest := line.drop (i + redirectMarker.length + 1)
      match findIdxC (fun c => c == '"') rest with
      | none => .panic
      | some k => .redirect (rest.take k)

/-- One step of the fold inside `parse_ids`: insert the `#`-trimmed id,
report a duplicate, then insert the percent-encoded alias. -/
def parseIdStep (file : FPath) (st : List Str × Bool × List Output)
    (t : Str × Nat × Str) : List Str × Bool × List Output :=
  match st, t with
  | (ids, errs, outs), (value, i, _) =>
    let frag := value.dropWhile (· == '#')
    let encoded := smallUrlEncode frag
    let r :=
      if frag ∈ ids then (ids, true, outs ++ [Output.idNotUnique file i value])
      else (ids ++ [frag], errs, outs)
    let ids2 := if encoded ∈ r.1 then r.1 else r.1 ++ [encoded]
    (ids2, r.2.1, r.2.2)

/-- `FileEntry::parse_ids`: scan for ` id` attributes only when the anchor
set is still empty. -/
def parseIds (e : FileEntry) (file : FPath) (contents : Str) (errors : Bool) :
    FileEntry × Bool × List Output :=
  if e.ids.isEmpty then
    let res := (withAttrsInSource (" id").data contents).foldl (parseIdStep file)
      (e.ids, errors, [])
    ({ e with ids := res.1 }, res.2.1, res.2.2)
  else (e, errors, [])

/-- `File::open` + `read_to_string`, with OS-side dot resolution. -/
def fsOpen (fs : Fs) (p : FPath) : Option Str :=
  lookupP fs.files (normSegs p)

/-- `path.is_dir()`. -/
def fsIsDir (fs : Fs) (p : FPath) : Bool :=
  fs.dirs.contains (normSegs p)

/-- `path.exists()`. -/
def fsExists (fs : Fs) (p : FPath) : Bool :=
  (fsOpen fs p).isSome || fsIsDir fs p

/-- `load_file`, with explicit recursion fuel (the source recurses without a
bound while following redirects). -/
def loadFile (fs : Fs) (root : FPath) :
    Nat → Cache → FPath → Redirect → Res (LoadRes × Cache)
  | 0, _, _, _ => .div
  | f + 1, cache, file, redirect =>
    let pretty := stripRoot root file
    match lookupP cache pretty with
    | some entry => .ok (.ok pretty entry.source, cache)
    | none =>
      match fsOpen fs file with
      | none =>
        match redirect with
        | .fromRedirect true => .ok (.err (.brokenRedirect file), cache)
        | _ => .ok (.err .ioError, cache)
      | some contents =>
        match maybeRedirect contents with
        | .panic => .panic
        | .redirect url =>
          match redirect with
          | .skipRedirect => .ok (.err .isRedirect, cache)
          | .fromRedirect _ =>
            loadFile fs root f cache (joinRel file.dropLast url)
              (.fromRedirect true)
        | .noRedirect =>
          .ok (.ok pretty contents, (pretty, ⟨contents, []⟩) :: cache)

/-- The external-scheme list rejected by the `href` closure. -/
def externalSchemes : List Str :=
  [("http:").data, ("https:").data, ("javascript:").data, ("ftp:").data,
   ("irc:").data, ("data:").data]

/-- `url.starts_with("http:") || ...`. -/
def isExternalUrl (url : Str) : Bool :=
  externalSchemes.any (fun p => p.isPrefixOf url)

/-- URL-to-path resolution in the `href` closure: join the base and the
url-minus-query, then fold components (`.` skipped, `..` pops); `none`
models the `panic!` on root or prefix components. -/
def resolvePath (file : FPath) (base url : Str) : Option FPath :=
  if base.isEmpty && url.isEmpty then some file
  else
    let joined :=
      if url.headD 'x' = '/' then url
      else if base.isEmpty then url
      else if url.isEmpty then base
      else base ++ ('/' :: url)
    if joined.headD 'x' = '/' then none
    else
      some (((splitOnChar '/' joined).filter (fun s => !s.isEmpty)).foldl
        (fun acc s =>
          if s = (".").data then acc
          else if s = ("..").data then acc.dropLast
          else acc ++ [s])
        file.dropLast)

/-- The closure's test
`fragment.splitn(2, '-').all(|f| f.chars().all(|c| c.is_numeric()))`,
parameterized by the numeric-character oracle of the Rust standard
library. -/
def fragmentSkip (isNum : Char → Bool) (frag : Str) : Bool :=
  let s := splitFirst '-' frag
  s.1.all isNum && (match s.2 with | none => true | some b => b.all isNum)

/-- The state threaded through the `href` closure. -/
abbrev CheckSt := Cache × Bool × List Output

/-- The body of the `href` closure in `check`, for one extracted link. -/
def checkUrl (isNum : Char → Bool) (fuel : Nat) (fs : Fs) (root : FPath)
    (file prettyFile : FPath) (st : CheckSt) (url : Str) (i : Nat)
    (base : Str) : Res CheckSt :=
  if isExternalUrl url then .ok st
  else
    match resolvePath file base (splitFirst '?' (splitFirst '#' url).1).1 with
    | none => .panic
    | some path =>
      if fsExists fs path then
        if fsIsDir fs path then
          .ok (st.1, true,
            st.2.2 ++ [.directoryLink prettyFile (i + 1) (stripRoot root path)])
        else if (match pathExtension path with
                 | some e => e != ("html").data
                 | none => false) then
          .ok st
        else
          match loadFile fs root fuel st.1 path (.fromRedirect false) with
          | .div => .div
          | .panic => .panic
          | .ok (.err .ioError, _) => .panic
          | .ok (.err .isRedirect, _) => .panic
          | .ok (.err (.brokenRedirect target), cache1) =>
            .ok (cache1, true,
              st.2.2 ++ [.brokenRedirect prettyFile (i + 1) target])
          | .ok (.ok prettyPath contents, cache1) =>
            match (splitFirst '#' url).2 with
            | none => .ok (cache1, st.2.1, st.2.2)
            | some frag =>
              if fragmentSkip isNum frag then .ok (cache1, st.2.1, st.2.2)
              else
                match lookupP cache1 prettyPath with
                | none => .panic
                | some entry =>
                  if frag ∈ (parseIds entry prettyPath contents st.2.1).1.ids then
                    .ok (cUpdate cache1 prettyPath
                          (parseIds entry prettyPath contents st.2.1).1,
                      (parseIds entry prettyPath contents st.2.1).2.1,
                      st.2.2 ++ (parseIds entry prettyPath contents st.2.1).2.2)
                  else
                    .ok (cUpdate cache1 prettyPath
                          (parseIds entry prettyPath contents st.2.1).1,
                      true,
                      st.2.2 ++ (parseIds entry prettyPath contents st.2.1).2.2 ++
                        [.brokenLinkFragment prettyFile (i + 1) frag prettyPath])
      else
        .ok (st.1, true,
          st.2.2 ++ [.brokenLink prettyFile (i + 1) (stripRoot root path)])

/-- The whitelisted path suffixes skipped by `check`. -/
def whitelist : List FPath :=
  [[("std").data, ("string").data, ("struct.String.html").data],
   [("interpret").data, ("struct.ValTy.html").data],
   [("symbol").data, ("struct.InternedString.html").data],
   [("ast").data, ("struct.ThinVec.html").data],
   [("util").data, ("struct.ThinVec.html").data],
   [("util").data, ("struct.RcSlice.html").data],
   [("layout").data, ("struct.TyLayout.html").data],
   [("ty").data, ("struct.Slice.html").data],
   [("ty").data, ("enum.Attributes.html").data],
   [("ty").data, ("struct.SymbolName.html").data],
   [("string").data, ("struct.String.html").data],
   [("btree_set").data, ("struct.BTreeSet.html").data],
   [("struct.BTreeSet.html").data],
   [("btree_map").data, ("struct.BTreeMap.html").data],
   [("hash_map").data, ("struct.HashMap.html").data],
   [("hash_set").data, ("struct.HashSet.html").data],
   [("sync").data, ("struct.Lrc.html").data],
   [("sync").data, ("struct.RwLock.html").data],
   [("deriving").data, ("generic").data, ("index.html").data],
   [("deriving").data, ("generic").data, ("macro.vec.html").data],
   [("deriving").data, ("custom").data, ("macro.panic.html").data],
   [("proc_macro_impl").data, ("macro.panic.html").data]]

/-- `check` for one file: skip non-HTML and whitelisted files, load it
(skipping redirect files), parse its ids, then process every `href`. -/
def check (isNum : Char → Bool) (fuel : Nat) (fs : Fs) (root : FPath)
    (cache : Cache) (file : FPath) (errors : Bool) :
    Res (Cache × Bool × List Output × Option FPath) :=
  if pathExtension file ≠ some (("html").data) then .ok (cache, errors, [], none)
  else if whitelist.any (fun w => w.isSuffixOf file) then
    .ok (cache, errors, [], none)
  else
    match loadFile fs root fuel cache file .skipRedirect with
    | .div => .div
    | .panic => .panic
    | .ok (.err _, cache1) => .ok (cache1, errors, [], none)
    | .ok (.ok prettyFile contents, cache1) =>
      match lookupP cache1 prettyFile with
      | none => .panic
      | some entry =>
        match (withAttrsInSource (" href").data contents).foldl
          (fun acc t =>
            match acc with
            | Res.ok st =>
              checkUrl isNum fuel fs root file prettyFile st t.1 t.2.1 t.2.2
            | other => other)
          (Res.ok (cUpdate cache1 prettyFile
              (parseIds entry prettyFile contents errors).1,
            (parseIds entry prettyFile contents errors).2.1,
            (parseIds entry prettyFile contents errors).2.2)) with
        | .div => .div
        | .panic => .panic
        | .ok st => .ok (st.1, st.2.1, st.2.2, some prettyFile)

/-- One regular-file iteration of `walk`: run `check`, then release the
checked file's raw contents. -/
def walkVisitFile (isNum : Char → Bool) (fuel : Nat) (fs : Fs) (root : FPath)
    (cache : Cache) (file : FPath) (errors : Bool) :
    Res (Cache × Bool × List Output × Option FPath) :=
  match check isNum fuel fs root cache file errors with
  | .ok (c, e, o, some pretty) =>
    match lookupP c pretty with
    | none => .panic
    | some entry =>
      .ok (cUpdate c pretty { entry with source := [] }, e, o, some pretty)
  | other => other

/-- The redirect step `load_file` takes on a fresh, uncached file. -/
def redirectNext (fs : Fs) (p : FPath) : Option FPath :=
  match fsOpen fs p with
  | none => none
  | some c =>
    match maybeRedirect c with
    | .redirect url => some (joinRel p.dropLast url)
    | _ => none

/-- Within `k` applications of `redirectNext`, the chain from `p` reaches a
file that is missing or is not a redirect. -/
def reachesEnd (fs : Fs) : Nat → FPath → Bool
  | 0, _ => false
  | k + 1, p =>
    match redirectNext fs p with
    | none => true
    | some q => reachesEnd fs k q

/-- Recognizer for `broken link fragment` diagnostics. -/
def isFragDefect : Output → Bool
  | .brokenLinkFragment _ _ _ _ => true
  | _ => false

/-- The spec's line-number-fragment pattern `^[0-9]+(-[0-9]+)?$` with ASCII
digits, written from the spec's words for comparison with the code's test. -/
def specLineNumberFragment (f : Str) : Bool :=
  let s := splitFirst '-' f
  !s.1.isEmpty && s.1.all Char.isDigit &&
    (match s.2 with
     | none => true
     | some b => !b.isEmpty && b.all Char.isDigit)

/-- A seven-line soft-redirect document pointing at `target`, with the
redirect marker on the 7th line as rustdoc emits it. -/
def redirDoc (target : String) : Str :=
  ("<html>\n<head>\n<title>t</title>\n</head>\n<body>\n<center>\n<p>Redirecting to <a href=\"" ++ target ++ "\">link</a></p>\n</body>\n</html>").data

def aPath : FPath := [("a.html").data]

def bPath : FPath := [("b.html").data]

def cPath : FPath := [("c.html").data]

def rPath : FPath := [("r.html").data]

def tgtPath : FPath := [("target.html").data]

def srcPath : FPath := [("src.html").data]

def xPath : FPath := [("x.html").data]

def ghostPath : FPath := [("ghost.html").data]

/-- Corpus with a two-step redirect chain `a.html → b.html → c.html`, where
`c.html` holds arbitrary contents. -/
def chainFs (cContents : Str) : Fs :=
  ⟨[(aPath, redirDoc "b.html"), (bPath, redirDoc "c.html"),
    (cPath, cContents)], []⟩

/-- Corpus with a redirect cycle `a.html → b.html → a.html`. -/
def cycFs : Fs :=
  ⟨[(aPath, redirDoc "b.html"), (bPath, redirDoc "a.html")], []⟩

/-- Corpus where `r.html` redirects to the missing `target.html`. -/
def brokenFs : Fs :=
  ⟨[(srcPath, ("<a href=\"r.html#frag\">go</a>").data),
    (rPath, redirDoc "target.html")], []⟩

/-- One-file corpus with a single genuine document carrying one anchor. -/
def oneFs : Fs :=
  ⟨[(xPath, ("<h1 id=\"anchor\">hi</h1>").data)], []⟩

/-- A document whose first line declares the same id twice. -/
def dupIdDoc : Str := ("<p id=\"x\"></p><p id=\"x\"></p>").data

/-- A document whose 7th line contains the spec's marker text but not the
code's marker (it lacks the `<p>` prefix). -/
def bareMarkerDoc : Str :=
  ("a\nb\nc\nd\ne\nf\nRedirecting to <a href=\"x.html\">go</a>").data

/-- The redirect marker as the spec states it, without the `<p>` prefix. -/
def specMarker : Str := ("Redirecting to <a href=").data

/-- A list is not empty exactly when `isEmpty` is `false`. -/
theorem isEmpty_eq_false_of_ne_nil {α : Type} {l : List α} (h : l ≠ []) :
    l.isEmpty = false := by
  cases l with
  | nil => exact absurd rfl h
  | cons a as => rfl

/-- Claim C5: an href beginning with one of the external scheme prefixes
`http:`, `https:`, `javascript:`, `ftp:`, `irc:`, `data:` is ignored by the
`href` closure: no defect is reported, no resolution or lookup happens, and
the cache and the errors flag are unchanged. -/
theorem c5_external_url_noop (isNum : Char → Bool) (fuel : Nat) (fs : Fs)
    (root file prettyFile : FPath) (cache : Cache) (errors : Bool)
    (outs : List Output) (url : Str) (i : Nat) (base : Str)
    (h : ("http:").data.isPrefixOf url = true ∨
         ("https:").data.isPrefixOf url = true ∨
         ("javascript:").data.isPrefixOf url = true ∨
         ("ftp:").data.isPrefixOf url = true ∨
         ("irc:").data.isPrefixOf url = true ∨
         ("data:").data.isPrefixOf url = true) :
    checkUrl isNum fuel fs root file prettyFile (cache, errors, outs) url i base =
      .ok (cache, errors, outs) := by
  have hx : isExternalUrl url = true := by
    unfold isExternalUrl externalSchemes
    rcases h with h | h | h | h | h | h <;> simp [h]
  unfold checkUrl
  rw [hx]
  rfl

/-- Witness for C5 at a concrete https URL. -/
theorem c5_witness :
    checkUrl (fun c => c.isDigit) 1 oneFs [] srcPath srcPath ([], false, [])
      (("https://example.com/page").data) 0 [] = .ok ([], false, []) :=
  c5_external_url_noop _ _ _ _ _ _ _ _ _ _ _ _
    (Or.inr (Or.inl (by decide)))

/-- Claim C3 (code-bug evidence): a duplicate id on 1-based line 1 is
reported by `parse_ids` with printed line number 0 — the raw 0-based
enumerate index — whereas every other defect kind prints `i + 1`. -/
theorem c3_id_not_unique_line_number :
    parseIds ⟨[], []⟩ srcPath dupIdDoc false =
      (⟨[], [("x").data]⟩, true,
       [Output.idNotUnique srcPath 0 (("x").data)]) := by
  decide

/-- Claim C8 (amended): a link whose target is a soft redirect to a missing
file yields exactly one `broken redirect` defect naming the missing target,
no `broken link` defect, and no abort; a missing file loaded in
followed-redirect mode gives the reported `BrokenRedirect` error while both
non-followed modes give the fatal `IOError` class; but a top-level file
whose own load fails is silently skipped rather than fatal. -/
theorem c8_broken_redirect (isNum : Char → Bool) (e0 : Bool) :
    checkUrl isNum 9 brokenFs [] srcPath srcPath ([], e0, [])
        (("r.html#frag").data) 0 [] =
      .ok ([], true, [Output.brokenRedirect srcPath 1 tgtPath]) ∧
    loadFile brokenFs [] 1 [] tgtPath (.fromRedirect true) =
      .ok (.err (.brokenRedirect tgtPath), []) ∧
    loadFile brokenFs [] 1 [] tgtPath (.fromRedirect false) =
      .ok (.err .ioError, []) ∧
    loadFile brokenFs [] 1 [] tgtPath .skipRedirect =
      .ok (.err .ioError, []) :=
  ⟨rfl, by decide, by decide, by decide⟩

/-- Claim C8 counterexample: a read failure of a non-followed-redirect file
is not always fatal — `check` on a file whose own load fails returns
normally and silently skips the file. -/
theorem c8_counterexample :
    check (fun c => c.isDigit) 3 brokenFs [] [] ghostPath false =
      .ok ([], false, [], none) := by
  decide

/-- On the cyclic corpus, `loadFile` exhausts any amount of fuel: the
recursion of the source never returns. -/
theorem cycFs_load_div : ∀ (n : Nat) (b : Bool),
    loadFile cycFs [] n [] aPath (.fromRedirect b) = .div ∧
    loadFile cycFs [] n [] bPath (.fromRedirect b) = .div
  | 0, _ => ⟨rfl, rfl⟩
  | n + 1, _ => ⟨(cycFs_load_div n true).2, (cycFs_load_div n true).1⟩

/-- Claim C1 counterexample: on the corpus with the redirect cycle
`a.html → b.html → a.html`, `load_file` never returns a result — no amount
of fuel suffices. -/
theorem c1_counterexample :
    ¬ ∃ fuel, loadFile cycFs [] fuel [] aPath (.fromRedirect false) ≠ Res.div := by
  rintro ⟨fuel, h⟩
  exact h (cycFs_load_div fuel false).1

/-- Claim C1 (amended): `load_file` terminates whenever the chain of
followed redirects from the requested file reaches a missing or
non-redirect document within `k` steps — in particular on every corpus
whose redirect relation is acyclic; a cyclic chain recurses forever. -/
theorem c1_load_terminates (fs : Fs) (root : FPath) (k : Nat) (file : FPath)
    (cache : Cache) (mode : Redirect) (h : reachesEnd fs k file = true) :
    loadFile fs root k cache file mode ≠ Res.div := by
  induction k generalizing file cache mode with
  | zero => simp [reachesEnd] at h
  | succ k ih =>
    simp only [loadFile]
    cases hc : lookupP cache (stripRoot root file) with
    | some entry => simp
    | none =>
      cases ho : fsOpen fs file with
      | none =>
        simp only [ho]
        cases mode with
        | skipRedirect => simp
        | fromRedirect b => cases b <;> simp
      | some contents =>
        simp only [ho]
        cases hm : maybeRedirect contents with
        | panic => simp [hm]
        | noRedirect => simp [hm]
        | redirect url =>
          have hn : redirectNext fs file = some (joinRel file.dropLast url) := by
            simp [redirectNext, ho, hm]
          simp only [reachesEnd, hn] at h
          simp only [hm]
          cases mode with
          | skipRedirect => simp
          | fromRedirect b => simpa using ih _ _ _ h

/-- Witness for C1's amended termination theorem on a one-file corpus. -/
theorem c1_witness :
    reachesEnd oneFs 1 xPath = true ∧
    loadFile oneFs [] 1 [] xPath Redirect.skipRedirect ≠ Res.div :=
  ⟨by decide, c1_load_terminates _ _ _ _ _ _ (by decide)⟩

/-- Each id-fold step leaves the accumulated id set nonempty. -/
theorem parseIdStep_ne_nil (file : FPath) (st : List Str × Bool × List Output)
    (t : Str × Nat × Str) : (parseIdStep file st t).1 ≠ [] := by
  obtain ⟨ids, errs, outs⟩ := st
  obtain ⟨v, i, b⟩ := t
  simp only [parseIdStep]
  split_ifs with h1 h2 h2 <;>
    simp_all [List.ne_nil_of_mem]
  · exact List.ne_nil_of_mem h1

/-- Folding id-fold steps over a list keeps a nonempty id set nonempty. -/
theorem foldl_parseIdStep_ne_nil (file : FPath) (l : List (Str × Nat × Str)) :
    ∀ st : List Str × Bool × List Output, st.1 ≠ [] →
      (l.foldl (parseIdStep file) st).1 ≠ [] := by
  induction l with
  | nil => intro st h; simpa using h
  | cons a as ih => intro st _; exact ih _ (parseIdStep_ne_nil file st a)

/-- Core lemma shared by the fragment-skip claims: when the closure's
line-number test accepts every fragment present in `url`, `checkUrl` never
adds a `broken link fragment` diagnostic — every output is either one that
was already accumulated or a defect of another kind. -/
theorem checkUrl_skip_no_frag (isNum : Char → Bool) (fuel : Nat) (fs : Fs)
    (root file prettyFile : FPath) (cache : Cache) (errors : Bool)
    (outs : List Output) (url : Str) (i : Nat) (base : Str)
    (hfr : ∀ frag, (splitFirst '#' url).2 = some frag →
      fragmentSkip isNum frag = true) :
    ∀ c' e' o', checkUrl isNum fuel fs root file prettyFile
        (cache, errors, outs) url i base = .ok (c', e', o') →
      ∀ x ∈ o', x ∈ outs ∨ isFragDefect x = false := by
  intro c' e' o' hres x hx
  unfold checkUrl at hres
  dsimp only at hres
  by_cases hext : isExternalUrl url = true
  · rw [if_pos hext] at hres
    simp only [Res.ok.injEq, Prod.mk.injEq] at hres
    obtain ⟨-, -, rfl⟩ := hres
    exact Or.inl hx
  · rw [if_neg hext] at hres
    cases hrp : resolvePath file base (splitFirst '?' (splitFirst '#' url).1).1 with
    | none =>
      rw [hrp] at hres
      exact Res.noConfusion hres
    | some path =>
      rw [hrp] at hres
      dsimp only at hres
      by_cases hex : fsExists fs path = true
      · rw [if_pos hex] at hres
        by_cases hdir : fsIsDir fs path = true
        · rw [if_pos hdir] at hres
          simp only [Res.ok.injEq, Prod.mk.injEq] at hres
          obtain ⟨-, -, rfl⟩ := hres
          rcases List.mem_append.mp hx with hxo | hxd
          · exact Or.inl hxo
          · simp only [List.mem_singleton] at hxd
            subst hxd
            exact Or.inr rfl
        · rw [if_neg hdir] at hres
          by_cases hextn : (match pathExtension path with
              | some e => e != ("html").data
              | none => false) = true
          · rw [if_pos hextn] at hres
            simp only [Res.ok.injEq, Prod.mk.injEq] at hres
            obtain ⟨-, -, rfl⟩ := hres
            exact Or.inl hx
          · rw [if_neg hextn] at hres
            cases hld : loadFile fs root fuel cache path (.fromRedirect false) with
            | div =>
              rw [hld] at hres
              exact Res.noConfusion hres
            | panic =>
              rw [hld] at hres
              exact Res.noConfusion hres
            | ok pr =>
              obtain ⟨lr, cache1⟩ := pr
              cases lr with
              | err le =>
                cases le with
                | ioError =>
                  rw [hld] at hres
                  exact Res.noConfusion hres
                | isRedirect =>
                  rw [hld] at hres
                  exact Res.noConfusion hres
                | brokenRedirect target =>
                  rw [hld] at hres
                  simp only [Res.ok.injEq, Prod.mk.injEq] at hres
                  obtain ⟨-, -, rfl⟩ := hres
                  rcases List.mem_append.mp hx with hxo | hxd
                  · exact Or.inl hxo
                  · simp only [List.mem_singleton] at hxd
                    subst hxd
                    exact Or.inr rfl
              | ok prettyPath contents =>
                rw [hld] at hres
                dsimp only at hres
                cases hfrag : (splitFirst '#' url).2 with
                | none =>
                  rw [hfrag] at hres
                  simp only [Res.ok.injEq, Prod.mk.injEq] at hres
                  obtain ⟨-, -, rfl⟩ := hres
                  exact Or.inl hx
                | some frag =>
                  rw [hfrag] at hres
                  dsimp only at hres
                  rw [if_pos (hfr frag hfrag)] at hres
                  simp only [Res.ok.injEq, Prod.mk.injEq] at hres
                  obtain ⟨-, -, rfl⟩ := hres
                  exact Or.inl hx
      · rw [if_neg hex] at hres
        simp only [Res.ok.injEq, Prod.mk.injEq] at hres
        obtain ⟨-, -, rfl⟩ := hres
        rcases List.mem_append.mp hx with hxo | hxd
        · exact Or.inl hxo
        · simp only [List.mem_singleton] at hxd
          subst hxd
          exact Or.inr rfl

/-- The spec's ASCII line-number pattern implies the code's skip test, for
any numeric-character oracle that accepts the ASCII digits (as Rust's
`char::is_numeric` does). -/
theorem specPattern_implies_skip (isNum : Char → Bool) (frag : Str)
    (hnum : ∀ c : Char, c.isDigit = true → isNum c = true)
    (hpat : specLineNumberFragment frag = true) :
    fragmentSkip isNum frag = true := by
  simp only [specLineNumberFragment] at hpat
  simp only [fragmentSkip]
  rcases hs : splitFirst '-' frag with ⟨a, b⟩
  rw [hs] at hpat
  cases b with
  | none =>
    simp only [Bool.and_eq_true, List.all_eq_true] at hpat ⊢
    exact ⟨fun c hc => hnum c (hpat.1.2 c hc), trivial⟩
  | some b2 =>
    simp only [Bool.and_eq_true, List.all_eq_true] at hpat ⊢
    exact ⟨fun c hc => hnum c (hpat.1.2 c hc),
           fun c hc => hnum c (hpat.2.2 c hc)⟩

/-- Claim C6: a fragment matching the spec's pattern `^[0-9]+(-[0-9]+)?$`
(digits only, or two digit groups joined by one hyphen) is never checked
against the target's anchor set: the closure reports no
`broken link fragment` defect for such a link. -/
theorem c6_line_number_fragment_skipped (isNum : Char → Bool) (fuel : Nat)
    (fs : Fs) (root file prettyFile : FPath) (cache : Cache) (errors : Bool)
    (outs : List Output) (url frag : Str) (i : Nat) (base : Str)
    (hnum : ∀ c : Char, c.isDigit = true → isNum c = true)
    (hfrag : (splitFirst '#' url).2 = some frag)
    (hpat : specLineNumberFragment frag = true) :
    ∀ c' e' o', checkUrl isNum fuel fs root file prettyFile
        (cache, errors, outs) url i base = .ok (c', e', o') →
      ∀ x ∈ o', x ∈ outs ∨ isFragDefect x = false := by
  apply checkUrl_skip_no_frag
  intro f hf
  rw [hfrag] at hf
  injection hf with h
  subst h
  exact specPattern_implies_skip isNum frag hnum hpat

/-- Witness for C6: a link `ghost.html#12-34` resolved against a corpus
without that file yields only a `broken link` defect, never a fragment
defect. -/
theorem c6_witness :
    Output.brokenLink srcPath 1 ghostPath ∈ ([] : List Output) ∨
      isFragDefect (Output.brokenLink srcPath 1 ghostPath) = false :=
  c6_line_number_fragment_skipped Char.isDigit 3 oneFs [] srcPath srcPath []
    false [] (("ghost.html#12-34").data) (("12-34").data) 0 []
    (fun _ h => h) (by decide) (by decide)
    [] true [Output.brokenLink srcPath 1 ghostPath] (by decide)
    (Output.brokenLink srcPath 1 ghostPath) (by decide)

/-- Claim C10: the code's skip test is broader than the spec's pattern —
whenever the fragment, split at the first hyphen into at most two groups,
has every character of every group accepted by the numeric oracle
(vacuously including the empty fragment and the empty groups of `12-` or
`-5`, and covering any non-ASCII characters the oracle accepts), no anchor
lookup happens and no `broken link fragment` defect is ever reported. -/
theorem c10_code_skip_broader (isNum : Char → Bool) (fuel : Nat)
    (fs : Fs) (root file prettyFile : FPath) (cache : Cache) (errors : Bool)
    (outs : List Output) (url frag : Str) (i : Nat) (base : Str)
    (hfrag : (splitFirst '#' url).2 = some frag)
    (h1 : ((splitFirst '-' frag).1).all isNum = true)
    (h2 : ∀ b, (splitFirst '-' frag).2 = some b → b.all isNum = true) :
    ∀ c' e' o', checkUrl isNum fuel fs root file prettyFile
        (cache, errors, outs) url i base = .ok (c', e', o') →
      ∀ x ∈ o', x ∈ outs ∨ isFragDefect x = false := by
  apply checkUrl_skip_no_frag
  intro f hf
  rw [hfrag] at hf
  injection hf with h
  subst h
  simp only [fragmentSkip]
  rcases hs : splitFirst '-' frag with ⟨a, b⟩
  rw [hs] at h1 h2
  simp only [Bool.and_eq_true]
  refine ⟨h1, ?_⟩
  cases b with
  | none => rfl
  | some b2 => exact h2 b2 rfl

/-- Witness for C10: the empty fragment `ghost.html#` is skipped even under
the oracle that rejects every character. -/
theorem c10_witness :
    Output.brokenLink srcPath 5 ghostPath ∈ ([] : List Output) ∨
      isFragDefect (Output.brokenLink srcPath 5 ghostPath) = false :=
  c10_code_skip_broader (fun _ => false) 3 oneFs [] srcPath srcPath []
    false [] (("ghost.html#").data) [] 4 []
    (by decide) (by decide) (fun b hb => Option.noConfusion hb)
    [] true [Output.brokenLink srcPath 5 ghostPath] (by decide)
    (Output.brokenLink srcPath 5 ghostPath) (by decide)

/-- Claim C2: redirect following is transitive — with `a.html` redirecting
to `b.html`, `b.html` redirecting to `c.html`, and `c.html` a genuine
(non-redirect) document, a link `a.html#frag` is validated against
`c.html`'s parsed anchor set: the `broken link fragment` defect (naming
`c.html`) is reported exactly when that set does not contain `frag`. -/
theorem c2_redirect_transitive (isNum : Char → Bool) (cContents frag : Str)
    (errors : Bool)
    (hC : maybeRedirect cContents = .noRedirect)
    (hskip : fragmentSkip isNum frag = false) :
    checkUrl isNum 9 (chainFs cContents) [] srcPath srcPath ([], errors, [])
        (("a.html#").data ++ frag) 0 [] =
      (if frag ∈ (parseIds ⟨cContents, []⟩ cPath cContents errors).1.ids then
        Res.ok (cUpdate [(cPath, ⟨cContents, []⟩)] cPath
            (parseIds ⟨cContents, []⟩ cPath cContents errors).1,
          (parseIds ⟨cContents, []⟩ cPath cContents errors).2.1,
          (parseIds ⟨cContents, []⟩ cPath cContents errors).2.2)
      else
        Res.ok (cUpdate [(cPath, ⟨cContents, []⟩)] cPath
            (parseIds ⟨cContents, []⟩ cPath cContents errors).1,
          true,
          (parseIds ⟨cContents, []⟩ cPath cContents errors).2.2 ++
            [Output.brokenLinkFragment srcPath 1 frag cPath])) := by
  have hload : loadFile (chainFs cContents) [] 9 [] aPath (.fromRedirect false) =
      (match maybeRedirect cContents with
       | RedirOut.panic => Res.panic
       | RedirOut.redirect u =>
         loadFile (chainFs cContents) [] 6 [] (joinRel (List.dropLast cPath) u)
           (Redirect.fromRedirect true)
       | RedirOut.noRedirect =>
         Res.ok (LoadRes.ok cPath cContents,
           [(cPath, FileEntry.mk cContents [])])) := rfl
  rw [hC] at hload
  unfold checkUrl
  have hext : isExternalUrl (("a.html#").data ++ frag) = false := rfl
  rw [hext]
  simp only [Bool.false_eq_true, if_false]
  have hrp : resolvePath srcPath []
      (splitFirst '?' (splitFirst '#' (("a.html#").data ++ frag)).1).1 =
      some aPath := rfl
  rw [hrp]
  dsimp only
  have hex : fsExists (chainFs cContents) aPath = true := rfl
  have hdir : fsIsDir (chainFs cContents) aPath = false := rfl
  rw [hex, hdir]
  simp only [Bool.false_eq_true, if_false, if_pos rfl]
  have hpe : (match pathExtension aPath with
      | some e => e != ("html").data
      | none => false) = false := rfl
  rw [hpe]
  simp only [Bool.false_eq_true, if_false]
  rw [hload]
  dsimp only
  have hsplit : (splitFirst '#' ((("a.html#").data ++ frag))).2 = some frag := rfl
  rw [hsplit]
  dsimp only
  rw [hskip]
  simp only [Bool.false_eq_true, if_false]
  have hlk : lookupP [(cPath, FileEntry.mk cContents [])] cPath =
      some (FileEntry.mk cContents []) := rfl
  rw [hlk]
  dsimp only
  by_cases hmem : frag ∈ (parseIds ⟨cContents, []⟩ cPath cContents errors).1.ids <;>
    simp [hmem]

/-- Witness for C2 on a concrete genuine `c.html` with anchor `x`: the
present fragment produces no defect, the absent one produces exactly the
fragment defect naming `c.html`. -/
theorem c2_witness :
    checkUrl Char.isDigit 9 (chainFs (("<h2 id=\"x\">sec</h2>").data)) []
        srcPath srcPath ([], false, []) (("a.html#").data ++ ("x").data) 0 [] =
      Res.ok ([(cPath, ⟨("<h2 id=\"x\">sec</h2>").data, [("x").data]⟩)],
        false, []) := by
  rw [c2_redirect_transitive Char.isDigit (("<h2 id=\"x\">sec</h2>").data)
    (("x").data) false (by decide) (by decide)]
  decide

/-- `findSub` succeeds exactly when the pattern occurs as a contiguous
sublist. -/
theorem findSub_isSome_iff (pat : Str) (s : Str) :
    (findSub pat s).isSome ↔ ∃ a b, s = a ++ pat ++ b := by
  induction s with
  | nil =>
    cases pat with
    | nil => simp [findSub]
    | cons c cs =>
      simp only [findSub, List.isEmpty_cons, if_false, Bool.false_eq_true,
        Option.isSome_none, false_iff]
      rintro ⟨a, b, h⟩
      exact absurd h (by simp)
  | cons c rest ih =>
    rw [findSub]
    by_cases hp : pat.isPrefixOf (c :: rest) = true
    · rw [if_pos hp]
      simp only [Option.isSome_some, true_iff]
      obtain ⟨t, ht⟩ := List.isPrefixOf_iff_prefix.mp hp
      exact ⟨[], t, by simp [← ht]⟩
    · rw [if_neg hp]
      have hmm : (Option.map (fun x => x + 1) (findSub pat rest)).isSome =
          (findSub pat rest).isSome := by
        cases findSub pat rest <;> rfl
      rw [hmm, ih]
      constructor
      · rintro ⟨a, b, rfl⟩
        exact ⟨c :: a, b, rfl⟩
      · rintro ⟨a, b, h⟩
        cases a with
        | nil =>
          exfalso
          apply hp
          apply List.isPrefixOf_iff_prefix.mpr
          exact ⟨b, by simpa using h.symm⟩
        | cons a0 as =>
          injection h with h1 h2
          exact ⟨as, b, h2⟩

/-- `findSub` returns the least index at which the pattern is a prefix of
the remaining suffix. -/
theorem findSub_eq_some_iff (pat : Str) (s : Str) (n : Nat) :
    findSub pat s = some n ↔
      (pat.isPrefixOf (s.drop n) = true ∧
       ∀ m, m < n → pat.isPrefixOf (s.drop m) = false) := by
  induction s generalizing n with
  | nil =>
    simp only [List.drop_nil]
    cases pat with
    | nil =>
      simp only [findSub, List.isEmpty_nil, if_true]
      constructor
      · intro h
        injection h with h
        subst h
        exact ⟨rfl, fun m hm => absurd hm (by omega)⟩
      · rintro ⟨h1, h2⟩
        cases n with
        | zero => rfl
        | succ k =>
          have := h2 0 (by omega)
          simp [List.isPrefixOf] at this
    | cons c cs =>
      simp only [findSub, List.isEmpty_cons, if_false, Bool.false_eq_true]
      constructor
      · intro h; cases h
      · rintro ⟨h1, -⟩
        simp [List.isPrefixOf] at h1
  | cons c rest ih =>
    by_cases hp : pat.isPrefixOf (c :: rest) = true
    · rw [findSub, if_pos hp]
      constructor
      · intro h
        injection h with h
        subst h
        exact ⟨by simpa using hp, fun m hm => absurd hm (by omega)⟩
      · rintro ⟨h1, h2⟩
        cases n with
        | zero => rfl
        | succ k =>
          have := h2 0 (by omega)
          rw [List.drop_zero] at this
          rw [hp] at this
          cases this
    · rw [findSub, if_neg hp]
      cases n with
      | zero =>
        constructor
        · intro h
          cases hf : findSub pat rest with
          | none => rw [hf] at h; cases h
          | some k =>
            rw [hf] at h
            simp only [Option.map_some', Option.some.injEq] at h
            exact absurd h (by omega)
        · rintro ⟨h1, -⟩
          rw [List.drop_zero] at h1
          exact absurd h1 hp
      | succ k =>
        constructor
        · intro h
          cases hf : findSub pat rest with
          | none => rw [hf] at h; cases h
          | some j =>
            rw [hf] at h
            simp only [Option.map_some', Option.some.injEq] at h
            have hj : k = j := by omega
            subst hj
            obtain ⟨h1, h2⟩ := (ih k).mp hf
            refine ⟨by simpa using h1, ?_⟩
            intro m hm
            cases m with
            | zero =>
              rw [List.drop_zero]
              cases hb : pat.isPrefixOf (c :: rest) with
              | false => rfl
              | true => exact absurd hb hp
            | succ m' =>
              have := h2 m' (by omega)
              simpa using this
        · rintro ⟨h1, h2⟩
          have h1' : pat.isPrefixOf (rest.drop k) = true := by simpa using h1
          have h2' : ∀ m, m < k → pat.isPrefixOf (rest.drop m) = false := by
            intro m hm
            have := h2 (m + 1) (by omega)
            simpa using this
          rw [(ih k).mpr ⟨h1', h2'⟩]
          rfl

/-- The first double quote after `u` (which contains none) sits at index
`u.length`. -/
theorem findIdxC_append_quote (u b : Str) (hq : '"' ∉ u) :
    findIdxC (fun c => c == '"') (u ++ '"' :: b) = some u.length := by
  induction u with
  | nil => simp [findIdxC]
  | cons c cs ih =>
    have hc : (c == '"') = false := by
      simp only [beq_eq_false_iff_ne]
      exact fun h => hq (by simp [h])
    rw [List.cons_append, findIdxC, hc]
    simp only [Bool.false_eq_true, if_false]
    rw [ih (fun h => hq (List.mem_cons_of_mem _ h))]
    rfl

/-- Claim C7 (amended): `maybe_redirect` inspects only the 7th line; a
document is treated as a soft redirect exactly when that line contains the
literal marker `<p>Redirecting to <a href=` (the spec omitted the `<p>`);
and at the marker's first occurrence the target URL is the text starting
one character past the marker up to the next double quote — under the
corpus convention that the character after the marker is the opening
quote, the text between the first quote after the marker and the next. -/
theorem c7_redirect_marker_amended :
    (∀ d d', (rustLines d).get? 6 = (rustLines d').get? 6 →
      maybeRedirect d = maybeRedirect d') ∧
    (∀ d, (rustLines d).get? 6 = none → maybeRedirect d = .noRedirect) ∧
    (∀ d l, (rustLines d).get? 6 = some l →
      (maybeRedirect d ≠ .noRedirect ↔ ∃ a b, l = a ++ redirectMarker ++ b)) ∧
    (∀ d l a u b, (rustLines d).get? 6 = some l →
      l = a ++ redirectMarker ++ ('"' :: (u ++ '"' :: b)) →
      (∀ a1 b1, l = a1 ++ redirectMarker ++ b1 → a.length ≤ a1.length) →
      '"' ∉ u →
      maybeRedirect d = .redirect u) := by
  refine ⟨?_, ?_, ?_, ?_⟩
  · intro d d' h
    unfold maybeRedirect
    rw [h]
  · intro d h
    unfold maybeRedirect
    rw [h]
  · intro d l h
    unfold maybeRedirect
    rw [h]
    dsimp only
    cases hf : findSub redirectMarker l with
    | none =>
      simp only [hf]
      constructor
      · intro hcon
        exact absurd rfl hcon
      · intro hab
        have hs : (findSub redirectMarker l).isSome :=
          (findSub_isSome_iff _ _).mpr hab
        rw [hf] at hs
        cases hs
    | some idx =>
      simp only [hf]
      constructor
      · intro _
        have hs : (findSub redirectMarker l).isSome := by rw [hf]; rfl
        exact (findSub_isSome_iff _ _).mp hs
      · intro _
        cases hfi : findIdxC (fun c => c == '"')
            (l.drop (idx + redirectMarker.length + 1)) with
        | none => simp [hfi]
        | some k => simp [hfi]
  · intro d l a u b h hl hmin hq
    unfold maybeRedirect
    rw [h]
    dsimp only
    have hfs : findSub redirectMarker l = some a.length := by
      rw [findSub_eq_some_iff]
      constructor
      · rw [hl, List.append_assoc, List.drop_left]
        exact List.isPrefixOf_iff_prefix.mpr ⟨'"' :: (u ++ '"' :: b), rfl⟩
      · intro m hm
        by_contra hcon
        rw [Bool.not_eq_false] at hcon
        obtain ⟨t, ht⟩ := List.isPrefixOf_iff_prefix.mp hcon
        have hdec : l = l.take m ++ redirectMarker ++ t := by
          rw [List.append_assoc, ht, List.take_append_drop]
        have hge := hmin (l.take m) t hdec
        have hle : (l.take m).length ≤ m := by
          simp [List.length_take]
        omega
    rw [hfs]
    dsimp only
    have hdrop : l.drop (a.length + redirectMarker.length + 1) = u ++ '"' :: b := by
      rw [hl]
      have h1 : a.length + redirectMarker.length + 1 =
          (a ++ redirectMarker).length + 1 := by simp
      rw [h1, List.drop_append]
      rfl
    rw [hdrop, findIdxC_append_quote u b hq]
    dsimp only
    rw [List.take_left]

/-- Claim C7 counterexample: a document whose 7th line contains the spec's
marker `Redirecting to <a href=` but not the code's `<p>`-prefixed marker
is not treated as a redirect. -/
theorem c7_counterexample :
    (∃ a b, (rustLines bareMarkerDoc).get? 6 = some (a ++ specMarker ++ b)) ∧
    maybeRedirect bareMarkerDoc = .noRedirect := by
  constructor
  · exact ⟨[], ("\"x.html\">go</a>").data, by decide⟩
  · decide

/-- Witness for C7's amended theorem: the canonical redirect document is
detected with target `x.html`. -/
theorem c7_witness :
    maybeRedirect (redirDoc "x.html") = RedirOut.redirect (("x.html").data) :=
  c7_redirect_marker_amended.2.2.2 (redirDoc "x.html")
    (("<p>Redirecting to <a href=\"x.html\">link</a></p>").data)
    [] (("x.html").data) ((">link</a></p>").data)
    (by decide) (by decide) (fun a1 b1 _ => Nat.zero_le _) (by decide)

/-- Claim C4: `parse_ids` is idempotent — a second call on the same entry
and the same contents returns the entry unchanged, prints nothing, and
leaves the errors flag unchanged; the anchor set is populated at most
once. -/
theorem c4_parse_ids_idempotent (e : FileEntry) (file : FPath)
    (contents : Str) (errors : Bool) :
    parseIds (parseIds e file contents errors).1 file contents
        (parseIds e file contents errors).2.1 =
      ((parseIds e file contents errors).1,
       (parseIds e file contents errors).2.1, []) := by
  by_cases h : e.ids.isEmpty
  · have hids : e.ids = [] := by
      cases hl : e.ids with
      | nil => rfl
      | cons a as => rw [hl] at h; exact absurd h (by simp)
    cases hl : withAttrsInSource (" id").data contents with
    | nil =>
      simp [parseIds, h, hl, hids]
    | cons a as =>
      have hne : (as.foldl (parseIdStep file)
          (parseIdStep file (e.ids, errors, []) a)).1 ≠ [] :=
        foldl_parseIdStep_ne_nil _ _ _ (parseIdStep_ne_nil _ _ _)
      simp [parseIds, h, hl]
      intro hcon
      exact absurd hcon hne
  · simp [parseIds, h]

/-- Updating the entry stored under `p` makes `p` map to the new entry,
provided `p` was present. -/
theorem lookupP_cUpdate_self (c : Cache) (p : FPath) (e : FileEntry)
    (h : (lookupP c p).isSome) : lookupP (cUpdate c p e) p = some e := by
  induction c with
  | nil => simp [lookupP] at h
  | cons qv rest ih =>
    obtain ⟨q, v⟩ := qv
    simp only [cUpdate, List.map_cons]
    by_cases hq : q = p
    · rw [if_pos hq]
      simp [lookupP]
    · rw [if_neg hq]
      simp only [lookupP, if_neg hq] at h ⊢
      exact ih h

/-- Updating the entry stored under `p` leaves every other key's binding
unchanged. -/
theorem lookupP_cUpdate_ne (c : Cache) (p q0 : FPath) (e : FileEntry)
    (h : q0 ≠ p) : lookupP (cUpdate c p e) q0 = lookupP c q0 := by
  induction c with
  | nil => rfl
  | cons qv rest ih =>
    obtain ⟨q, v⟩ := qv
    simp only [cUpdate, List.map_cons]
    by_cases hq : q = p
    · rw [if_pos hq]
      subst hq
      simp only [lookupP]
      rw [if_neg (fun hh => h hh.symm), if_neg (fun hh => h hh.symm)]
      exact ih
    · rw [if_neg hq]
      simp only [lookupP]
      by_cases hqq : q = q0
      · rw [if_pos hqq, if_pos hqq]
      · rw [if_neg hqq, if_neg hqq]
        exact ih

/-- `cUpdate` never removes a key. -/
theorem lookupP_cUpdate_isSome (c : Cache) (p q : FPath) (e : FileEntry)
    (h : (lookupP c q).isSome) : (lookupP (cUpdate c p e) q).isSome := by
  by_cases hq : q = p
  · subst hq
    rw [lookupP_cUpdate_self c q e h]
    rfl
  · rw [lookupP_cUpdate_ne c p q e hq]
    exact h

/-- One-step unfolding of `loadFile` at positive fuel. -/
theorem loadFile_succ (fs : Fs) (root : FPath) (f : Nat) (cache : Cache)
    (file : FPath) (mode : Redirect) :
    loadFile fs root (f + 1) cache file mode =
      (match lookupP cache (stripRoot root file) with
      | some entry => .ok (.ok (stripRoot root file) entry.source, cache)
      | none =>
        match fsOpen fs file with
        | none =>
          match mode with
          | .fromRedirect true => .ok (.err (.brokenRedirect file), cache)
          | _ => .ok (.err .ioError, cache)
        | some contents =>
          match maybeRedirect contents with
          | .panic => .panic
          | .redirect url =>
            match mode with
            | .skipRedirect => .ok (.err .isRedirect, cache)
            | .fromRedirect _ =>
              loadFile fs root f cache (joinRel file.dropLast url)
                (.fromRedirect true)
          | .noRedirect =>
            .ok (.ok (stripRoot root file) contents,
              (stripRoot root file, ⟨contents, []⟩) :: cache)) := rfl

/-- `load_file` only ever inserts cache entries: every key present before a
successful load is still present after it. -/
theorem loadFile_pres (fs : Fs) (root : FPath) :
    ∀ (fuel : Nat) (cache : Cache) (file : FPath) (mode : Redirect)
      (res : LoadRes) (c' : Cache),
      loadFile fs root fuel cache file mode = .ok (res, c') →
      ∀ p, (lookupP cache p).isSome → (lookupP c' p).isSome := by
  intro fuel
  induction fuel with
  | zero =>
    intro cache file mode res c' h
    cases h
  | succ f ih =>
    intro cache file mode res c' h p hp
    rw [loadFile_succ] at h
    cases hc : lookupP cache (stripRoot root file) with
    | some entry =>
      rw [hc] at h
      simp only [Res.ok.injEq, Prod.mk.injEq] at h
      obtain ⟨-, h2⟩ := h
      subst h2
      exact hp
    | none =>
      rw [hc] at h
      dsimp only at h
      cases ho : fsOpen fs file with
      | none =>
        rw [ho] at h
        dsimp only at h
        cases mode with
        | skipRedirect =>
          simp only [Res.ok.injEq, Prod.mk.injEq] at h
          obtain ⟨-, h2⟩ := h
          subst h2
          exact hp
        | fromRedirect b =>
          cases b <;>
            (simp only [Res.ok.injEq, Prod.mk.injEq] at h
             obtain ⟨-, h2⟩ := h
             subst h2
             exact hp)
      | some contents =>
        rw [ho] at h
        dsimp only at h
        cases hm : maybeRedirect contents with
        | panic =>
          rw [hm] at h
          exact Res.noConfusion h
        | noRedirect =>
          rw [hm] at h
          simp only [Res.ok.injEq, Prod.mk.injEq] at h
          obtain ⟨-, h2⟩ := h
          subst h2
          simp only [lookupP]
          by_cases hpp : stripRoot root file = p
          · rw [if_pos hpp]
            rfl
          · rw [if_neg hpp]
            exact hp
        | redirect url =>
          rw [hm] at h
          dsimp only at h
          cases mode with
          | skipRedirect =>
            simp only [Res.ok.injEq, Prod.mk.injEq] at h
            obtain ⟨-, h2⟩ := h
            subst h2
            exact hp
          | fromRedirect b =>
            exact ih _ _ _ _ _ h p hp

/-- A successful `load_file` leaves the returned pretty path present in the
cache. -/
theorem loadFile_ok_mem (fs : Fs) (root : FPath) :
    ∀ (fuel : Nat) (cache : Cache) (file : FPath) (mode : Redirect)
      (pretty : FPath) (contents : Str) (c' : Cache),
      loadFile fs root fuel cache file mode = .ok (.ok pretty contents, c') →
      (lookupP c' pretty).isSome := by
  intro fuel
  induction fuel with
  | zero =>
    intro cache file mode pretty contents c' h
    cases h
  | succ f ih =>
    intro cache file mode pretty contents c' h
    rw [loadFile_succ] at h
    cases hc : lookupP cache (stripRoot root file) with
    | some entry =>
      rw [hc] at h
      simp only [Res.ok.injEq, Prod.mk.injEq, LoadRes.ok.injEq] at h
      obtain ⟨⟨h1, -⟩, h2⟩ := h
      subst h1
      subst h2
      rw [hc]
      rfl
    | none =>
      rw [hc] at h
      dsimp only at h
      cases ho : fsOpen fs file with
      | none =>
        rw [ho] at h
        dsimp only at h
        cases mode with
        | skipRedirect =>
          simp only [Res.ok.injEq, Prod.mk.injEq] at h
          obtain ⟨h1, -⟩ := h
          cases h1
        | fromRedirect b =>
          cases b <;>
            (simp only [Res.ok.injEq, Prod.mk.injEq] at h
             obtain ⟨h1, -⟩ := h
             cases h1)
      | some contents0 =>
        rw [ho] at h
        dsimp only at h
        cases hm : maybeRedirect contents0 with
        | panic =>
          rw [hm] at h
          exact Res.noConfusion h
        | noRedirect =>
          rw [hm] at h
          simp only [Res.ok.injEq, Prod.mk.injEq, LoadRes.ok.injEq] at h
          obtain ⟨⟨h1, -⟩, h2⟩ := h
          subst h1
          subst h2
          simp [lookupP]
        | redirect url =>
          rw [hm] at h
          dsimp only at h
          cases mode with
          | skipRedirect =>
            simp only [Res.ok.injEq, Prod.mk.injEq] at h
            obtain ⟨h1, -⟩ := h
            cases h1
          | fromRedirect b =>
            exact ih _ _ _ _ _ _ h

/-- The `href` closure only ever inserts or updates cache entries. -/
theorem checkUrl_pres (isNum : Char → Bool) (fuel : Nat) (fs : Fs)
    (root file prettyFile : FPath) (st : CheckSt) (url : Str) (i : Nat)
    (base : Str) (st' : CheckSt)
    (h : checkUrl isNum fuel fs root file prettyFile st url i base = .ok st') :
    ∀ p, (lookupP st.1 p).isSome → (lookupP st'.1 p).isSome := by
  obtain ⟨cache, errors, outs⟩ := st
  intro p hp
  unfold checkUrl at h
  dsimp only at h
  by_cases hext : isExternalUrl url = true
  · rw [if_pos hext] at h
    injection h with h
    subst h
    exact hp
  · rw [if_neg hext] at h
    cases hrp : resolvePath file base (splitFirst '?' (splitFirst '#' url).1).1 with
    | none =>
      rw [hrp] at h
      exact Res.noConfusion h
    | some path =>
      rw [hrp] at h
      dsimp only at h
      by_cases hex : fsExists fs path = true
      · rw [if_pos hex] at h
        by_cases hdir : fsIsDir fs path = true
        · rw [if_pos hdir] at h
          injection h with h
          subst h
          exact hp
        · rw [if_neg hdir] at h
          by_cases hextn : (match pathExtension path with
              | some e => e != ("html").data
              | none => false) = true
          · rw [if_pos hextn] at h
            injection h with h
            subst h
            exact hp
          · rw [if_neg hextn] at h
            cases hld : loadFile fs root fuel cache path (.fromRedirect false) with
            | div =>
              rw [hld] at h
              exact Res.noConfusion h
            | panic =>
              rw [hld] at h
              exact Res.noConfusion h
            | ok pr0 =>
              obtain ⟨lr, cache1⟩ := pr0
              have hp1 : (lookupP cache1 p).isSome :=
                loadFile_pres fs root fuel cache path (.fromRedirect false)
                  lr cache1 hld p hp
              cases lr with
              | err le =>
                cases le with
                | ioError =>
                  rw [hld] at h
                  exact Res.noConfusion h
                | isRedirect =>
                  rw [hld] at h
                  exact Res.noConfusion h
                | brokenRedirect target =>
                  rw [hld] at h
                  injection h with h
                  subst h
                  exact hp1
              | ok prettyPath contents =>
                rw [hld] at h
                dsimp only at h
                cases hfrag : (splitFirst '#' url).2 with
                | none =>
                  rw [hfrag] at h
                  injection h with h
                  subst h
                  exact hp1
                | some frag =>
                  rw [hfrag] at h
                  dsimp only at h
                  by_cases hsk : fragmentSkip isNum frag = true
                  · rw [if_pos hsk] at h
                    injection h with h
                    subst h
                    exact hp1
                  · rw [if_neg hsk] at h
                    cases hlk : lookupP cache1 prettyPath with
                    | none =>
                      rw [hlk] at h
                      exact Res.noConfusion h
                    | some entry =>
                      rw [hlk] at h
                      dsimp only at h
                      split at h <;>
                        (injection h with h
                         subst h
                         exact lookupP_cUpdate_isSome _ _ _ _ hp1)
      · rw [if_neg hex] at h
        injection h with h
        subst h
        exact hp

/-- Folding the `href` closure from a stuck state stays stuck. -/
theorem foldl_checkStep_div (isNum : Char → Bool) (fuel : Nat) (fs : Fs)
    (root file prettyFile : FPath) :
    ∀ l : List (Str × Nat × Str),
      (l.foldl (fun acc t =>
          match acc with
          | Res.ok st =>
            checkUrl isNum fuel fs root file prettyFile st t.1 t.2.1 t.2.2
          | other => other) Res.div = Res.div) ∧
      (l.foldl (fun acc t =>
          match acc with
          | Res.ok st =>
            checkUrl isNum fuel fs root file prettyFile st t.1 t.2.1 t.2.2
          | other => other) Res.panic = Res.panic) := by
  intro l
  induction l with
  | nil => exact ⟨rfl, rfl⟩
  | cons a as ih => exact ih

/-- Folding the `href` closure preserves cache keys. -/
theorem foldl_checkUrl_pres (isNum : Char → Bool) (fuel : Nat) (fs : Fs)
    (root file prettyFile : FPath) :
    ∀ (l : List (Str × Nat × Str)) (st st' : CheckSt),
      l.foldl (fun acc t =>
          match acc with
          | Res.ok st0 =>
            checkUrl isNum fuel fs root file prettyFile st0 t.1 t.2.1 t.2.2
          | other => other) (Res.ok st) = Res.ok st' →
      ∀ p, (lookupP st.1 p).isSome → (lookupP st'.1 p).isSome := by
  intro l
  induction l with
  | nil =>
    intro st st' h p hp
    rw [List.foldl_nil] at h
    injection h with h
    subst h
    exact hp
  | cons a as ih =>
    intro st st' h p hp
    rw [List.foldl_cons] at h
    dsimp only at h
    cases hcu : checkUrl isNum fuel fs root file prettyFile st a.1 a.2.1 a.2.2 with
    | div =>
      rw [hcu] at h
      rw [(foldl_checkStep_div isNum fuel fs root file prettyFile as).1] at h
      exact Res.noConfusion h
    | panic =>
      rw [hcu] at h
      rw [(foldl_checkStep_div isNum fuel fs root file prettyFile as).2] at h
      exact Res.noConfusion h
    | ok st1 =>
      rw [hcu] at h
      exact ih st1 st' h p
        (checkUrl_pres isNum fuel fs root file prettyFile st a.1 a.2.1 a.2.2
          st1 hcu p hp)

/-- `check` only ever inserts or updates cache entries. -/
theorem check_pres (isNum : Char → Bool) (fuel : Nat) (fs : Fs)
    (root : FPath) (cache : Cache) (file : FPath) (errors : Bool)
    (c' : Cache) (e' : Bool) (o' : List Output) (r : Option FPath)
    (h : check isNum fuel fs root cache file errors = .ok (c', e', o', r)) :
    ∀ p, (lookupP cache p).isSome → (lookupP c' p).isSome := by
  intro p hp
  unfold check at h
  by_cases h1 : pathExtension file ≠ some (("html").data)
  · rw [if_pos h1] at h
    simp only [Res.ok.injEq, Prod.mk.injEq] at h
    obtain ⟨h2, -⟩ := h
    subst h2
    exact hp
  · rw [if_neg h1] at h
    by_cases h2 : whitelist.any (fun w => w.isSuffixOf file) = true
    · rw [if_pos h2] at h
      simp only [Res.ok.injEq, Prod.mk.injEq] at h
      obtain ⟨h3, -⟩ := h
      subst h3
      exact hp
    · rw [if_neg h2] at h
      cases hld : loadFile fs root fuel cache file .skipRedirect with
      | div =>
        rw [hld] at h
        exact Res.noConfusion h
      | panic =>
        rw [hld] at h
        exact Res.noConfusion h
      | ok pr0 =>
        obtain ⟨lr, cache1⟩ := pr0
        have hp1 : (lookupP cache1 p).isSome :=
          loadFile_pres fs root fuel cache file .skipRedirect lr cache1 hld p hp
        cases lr with
        | err le =>
          rw [hld] at h
          simp only [Res.ok.injEq, Prod.mk.injEq] at h
          obtain ⟨h3, -⟩ := h
          subst h3
          exact hp1
        | ok prettyFile contents =>
          rw [hld] at h
          dsimp only at h
          cases hlk : lookupP cache1 prettyFile with
          | none =>
            rw [hlk] at h
            exact Res.noConfusion h
          | some entry =>
            rw [hlk] at h
            dsimp only at h
            cases hfl : (withAttrsInSource (" href").data contents).foldl
                (fun acc t =>
                  match acc with
                  | Res.ok st =>
                    checkUrl isNum fuel fs root file prettyFile st t.1 t.2.1 t.2.2
                  | other => other)
                (Res.ok (cUpdate cache1 prettyFile
                    (parseIds entry prettyFile contents errors).1,
                  (parseIds entry prettyFile contents errors).2.1,
                  (parseIds entry prettyFile contents errors).2.2)) with
            | div =>
              rw [hfl] at h
              exact Res.noConfusion h
            | panic =>
              rw [hfl] at h
              exact Res.noConfusion h
            | ok st =>
              rw [hfl] at h
              simp only [Res.ok.injEq, Prod.mk.injEq] at h
              obtain ⟨h3, -⟩ := h
              subst h3
              exact foldl_checkUrl_pres isNum fuel fs root file prettyFile _ _ _
                hfl p (lookupP_cUpdate_isSome _ _ _ _ hp1)

/-- When `check` reports a checked-and-cached file, that file's pretty path
is present in the resulting cache. -/
theorem check_some_mem (isNum : Char → Bool) (fuel : Nat) (fs : Fs)
    (root : FPath) (cache : Cache) (file : FPath) (errors : Bool)
    (c' : Cache) (e' : Bool) (o' : List Output) (p : FPath)
    (h : check isNum fuel fs root cache file errors = .ok (c', e', o', some p)) :
    (lookupP c' p).isSome := by
  unfold check at h
  by_cases h1 : pathExtension file ≠ some (("html").data)
  · rw [if_pos h1] at h
    simp only [Res.ok.injEq, Prod.mk.injEq] at h
    obtain ⟨-, -, -, h4⟩ := h
    cases h4
  · rw [if_neg h1] at h
    by_cases h2 : whitelist.any (fun w => w.isSuffixOf file) = true
    · rw [if_pos h2] at h
      simp only [Res.ok.injEq, Prod.mk.injEq] at h
      obtain ⟨-, -, -, h4⟩ := h
      cases h4
    · rw [if_neg h2] at h
      cases hld : loadFile fs root fuel cache file .skipRedirect with
      | div =>
        rw [hld] at h
        exact Res.noConfusion h
      | panic =>
        rw [hld] at h
        exact Res.noConfusion h
      | ok pr0 =>
        obtain ⟨lr, cache1⟩ := pr0
        cases lr with
        | err le =>
          rw [hld] at h
          simp only [Res.ok.injEq, Prod.mk.injEq] at h
          obtain ⟨-, -, -, h4⟩ := h
          cases h4
        | ok prettyFile contents =>
          have hmem1 : (lookupP cache1 prettyFile).isSome :=
            loadFile_ok_mem fs root fuel cache file .skipRedirect
              prettyFile contents cache1 hld
          rw [hld] at h
          dsimp only at h
          cases hlk : lookupP cache1 prettyFile with
          | none =>
            rw [hlk] at h
            exact Res.noConfusion h
          | some entry =>
            rw [hlk] at h
            dsimp only at h
            cases hfl : (withAttrsInSource (" href").data contents).foldl
                (fun acc t =>
                  match acc with
                  | Res.ok st =>
                    checkUrl isNum fuel fs root file prettyFile st t.1 t.2.1 t.2.2
                  | other => other)
                (Res.ok (cUpdate cache1 prettyFile
                    (parseIds entry prettyFile contents errors).1,
                  (parseIds entry prettyFile contents errors).2.1,
                  (parseIds entry prettyFile contents errors).2.2)) with
            | div =>
              rw [hfl] at h
              exact Res.noConfusion h
            | panic =>
              rw [hfl] at h
              exact Res.noConfusion h
            | ok st =>
              rw [hfl] at h
              simp only [Res.ok.injEq, Prod.mk.injEq] at h
              obtain ⟨h3, -, -, h4⟩ := h
              injection h4 with h4
              subst h4
              subst h3
              exact foldl_checkUrl_pres isNum fuel fs root file prettyFile _ _ _
                hfl prettyFile (lookupP_cUpdate_isSome _ _ _ _ hmem1)

/-- Claim C9: after the walk visits a file that was checked and cached, the
entry's raw contents are released (replaced by the empty string) while its
anchor set is unchanged; every other cache binding is untouched; and the
entry survives any later `check` call for the remainder of the run. -/
theorem c9_walk_releases_contents (isNum : Char → Bool) (fuel : Nat)
    (fs : Fs) (root : FPath) (cache : Cache) (file : FPath) (errors : Bool)
    (c' : Cache) (e' : Bool) (o' : List Output) (p : FPath)
    (h : check isNum fuel fs root cache file errors = .ok (c', e', o', some p)) :
    ∃ entry : FileEntry,
      lookupP c' p = some entry ∧
      walkVisitFile isNum fuel fs root cache file errors =
        .ok (cUpdate c' p ⟨[], entry.ids⟩, e', o', some p) ∧
      lookupP (cUpdate c' p ⟨[], entry.ids⟩) p = some ⟨[], entry.ids⟩ ∧
      (∀ q, q ≠ p → lookupP (cUpdate c' p ⟨[], entry.ids⟩) q = lookupP c' q) ∧
      (∀ (isNum2 : Char → Bool) (fuel2 : Nat) (fs2 : Fs) (root2 : FPath)
          (file2 : FPath) (errors2 : Bool) (c2 : Cache) (e2 : Bool)
          (o2 : List Output) (r2 : Option FPath),
        check isNum2 fuel2 fs2 root2 (cUpdate c' p ⟨[], entry.ids⟩) file2
            errors2 = .ok (c2, e2, o2, r2) →
        (lookupP c2 p).isSome) := by
  have hmem : (lookupP c' p).isSome :=
    check_some_mem isNum fuel fs root cache file errors c' e' o' p h
  cases hlk : lookupP c' p with
  | none => rw [hlk] at hmem; cases hmem
  | some entry =>
    refine ⟨entry, rfl, ?_, ?_, ?_, ?_⟩
    · unfold walkVisitFile
      rw [h]
      dsimp only
      rw [hlk]
    · exact lookupP_cUpdate_self c' p ⟨[], entry.ids⟩ (by rw [hlk]; rfl)
    · intro q hq
      exact lookupP_cUpdate_ne c' p q ⟨[], entry.ids⟩ hq
    · intro isNum2 fuel2 fs2 root2 file2 errors2 c2 e2 o2 r2 h2
      exact check_pres isNum2 fuel2 fs2 root2 _ file2 errors2 c2 e2 o2 r2 h2 p
        (lookupP_cUpdate_isSome _ _ _ _ hmem)

/-- Witness for C9 on the one-file corpus: the raw contents of `x.html` are
released after its visit while the anchor `anchor` is retained. -/
theorem c9_witness :
    ∃ entry : FileEntry,
      lookupP [(xPath, ⟨("<h1 id=\"anchor\">hi</h1>").data,
          [("anchor").data]⟩)] xPath = some entry ∧
      walkVisitFile (fun c => c.isDigit) 9 oneFs [] [] xPath false =
        .ok (cUpdate [(xPath, ⟨("<h1 id=\"anchor\">hi</h1>").data,
            [("anchor").data]⟩)] xPath ⟨[], entry.ids⟩, false, [], some xPath) ∧
      lookupP (cUpdate [(xPath, ⟨("<h1 id=\"anchor\">hi</h1>").data,
          [("anchor").data]⟩)] xPath ⟨[], entry.ids⟩) xPath =
        some ⟨[], entry.ids⟩ ∧
      (∀ q, q ≠ xPath →
        lookupP (cUpdate [(xPath, ⟨("<h1 id=\"anchor\">hi</h1>").data,
            [("anchor").data]⟩)] xPath ⟨[], entry.ids⟩) q =
          lookupP [(xPath, ⟨("<h1 id=\"anchor\">hi</h1>").data,
            [("anchor").data]⟩)] q) ∧
      (∀ (isNum2 : Char → Bool) (fuel2 : Nat) (fs2 : Fs) (root2 : FPath)
          (file2 : FPath) (errors2 : Bool) (c2 : Cache) (e2 : Bool)
          (o2 : List Output) (r2 : Option FPath),
        check isNum2 fuel2 fs2 root2 (cUpdate [(xPath,
            ⟨("<h1 id=\"anchor\">hi</h1>").data, [("anchor").data]⟩)] xPath
            ⟨[], entry.ids⟩) file2 errors2 = .ok (c2, e2, o2, r2) →
        (lookupP c2 xPath).isSome) :=
  c9_walk_releases_contents (fun c => c.isDigit) 9 oneFs [] [] xPath false
    [(xPath, ⟨("<h1 id=\"anchor\">hi</h1>").data, [("anchor").data]⟩)]
    false [] xPath (by decide)

end LinkChecker
